import Mathlib

/-!
Verification of the fault-tolerant command executor.

This file shallowly embeds the server database layer
(src/server/src/db/database.ts), the agent HTTP routes
(src/server/src/routes/agent.ts) and the agent-side executor
(src/agent/src/executor/commands.ts, agent entry point) in Lean, and
proves or refutes the spec claims about them.

Modelling conventions:
- SQLite tables become Lean lists in rowid (insertion) order; the
  commands table has primary key id, the agent_heartbeats table has
  primary key agent_id.  SQL UPDATE ... WHERE is a map over the list,
  SELECT ... LIMIT 1 is a first-match scan.  For
  ORDER BY created_at ASC LIMIT 1 (no further ordering key in the
  source), ties on created_at are resolved in rowid order, matching the
  observed stable behaviour of the engine.
- ISO-8601 timestamp strings compare like the instants they denote, so
  timestamps are modelled as naturals.
- JSON payload and result values are opaque serialized text.
- A JavaScript string is a list of UTF-16 code units (naturals);
  String.prototype.slice cuts code units, Buffer.byteLength counts
  UTF-8 bytes (surrogate pairs give 4 bytes, lone surrogates encode as
  the 3-byte replacement character).
- JSON.parse is an external runtime facility, modelled as an arbitrary
  parse function parameter.
-/

namespace FTExec

/-- The four lifecycle states in the commands.status column. -/
inductive CmdStatus where
  | pending
  | running
  | completed
  | failed
deriving DecidableEq, Repr

/-- From database.ts completeCommand: the stored result text is
JSON.stringify of the reported result, with the error field merged in
when an error string was supplied. -/
structure StoredResult where
  res : Option String
  err : Option String
deriving DecidableEq, Repr

/-- One row of the commands table (database.ts CommandRow). -/
structure CommandRec where
  id : String
  ctype : String
  payload : String
  status : CmdStatus
  result : Option StoredResult
  agent_id : Option String
  created_at : Nat
  updated_at : Nat
  started_at : Option Nat
  completed_at : Option Nat
deriving DecidableEq, Repr

/-- One row of the agent_heartbeats table. -/
structure HeartbeatRec where
  agent_id : String
  last_heartbeat : Nat
  current_command_id : Option String
deriving DecidableEq, Repr

/-- The durable server state: both tables, rows in rowid order. -/
structure DbState where
  commands : List CommandRec
  heartbeats : List HeartbeatRec
deriving DecidableEq, Repr

/-- The terminal statuses accepted by completeCommand
(TypeScript type 'COMPLETED' | 'FAILED'). -/
inductive TermStatus where
  | completed
  | failed
deriving DecidableEq, Repr

def TermStatus.toStatus : TermStatus → CmdStatus
  | .completed => .completed
  | .failed => .failed

def CmdStatus.isTerminal : CmdStatus → Bool
  | .completed => true
  | .failed => true
  | _ => false

/-- database.ts updateHeartbeat: INSERT OR REPLACE on the agent_id
primary key, setting last_heartbeat to now and current_command_id to
the given command id (NULL when absent). -/
def updateHeartbeat (agentId : String) (commandId : Option String) (now : Nat)
    (s : DbState) : DbState :=
  if s.heartbeats.any (fun h => decide (h.agent_id = agentId)) then
    { s with heartbeats := s.heartbeats.map fun h =>
        if h.agent_id = agentId then ⟨agentId, now, commandId⟩ else h }
  else
    { s with heartbeats := s.heartbeats ++ [⟨agentId, now, commandId⟩] }

/-- database.ts createCommand: INSERT of a fresh PENDING row; the
PRIMARY KEY constraint makes the insert fail when the id exists
(modelled as none). Returns the Command object the method builds. -/
def createCommand (id ctype payload : String) (now : Nat) (s : DbState) :
    Option (DbState × CommandRec) :=
  if s.commands.any (fun c => decide (c.id = id)) then none
  else
    let cmd : CommandRec :=
      ⟨id, ctype, payload, .pending, none, none, now, now, none, none⟩
    some ({ s with commands := s.commands ++ [cmd] }, cmd)

/-- database.ts recoverFromCrash: every RUNNING row is reset to PENDING
with agent_id and started_at cleared and updated_at refreshed. -/
def recoverFromCrash (now : Nat) (s : DbState) : DbState :=
  { s with commands := s.commands.map fun c =>
      if c.status = .running then
        { c with status := .pending, agent_id := none, started_at := none,
                 updated_at := now }
      else c }

/-- database.ts getCommand: SELECT * FROM commands WHERE id = ?. -/
def getCommand (id : String) (s : DbState) : Option CommandRec :=
  s.commands.find? (fun c => decide (c.id = id))

/-- The SELECT ... WHERE agent_id = ? AND status = 'RUNNING' lookup used
by fetchNextCommand and getUnfinishedCommand. -/
def getRunningFor (agentId : String) (s : DbState) : Option CommandRec :=
  s.commands.find? (fun c =>
    decide (c.agent_id = some agentId) && decide (c.status = .running))

/-- One step of the scan behind
SELECT * FROM commands WHERE status = 'PENDING'
ORDER BY created_at ASC LIMIT 1: keep the first PENDING row with the
smallest created_at (a later row replaces the candidate only when
strictly smaller, i.e. ties keep rowid order). -/
def selStep (acc : Option CommandRec) (c : CommandRec) : Option CommandRec :=
  if c.status = .pending then
    match acc with
    | none => some c
    | some b => if c.created_at < b.created_at then some c else some b
  else acc

def selectPending (l : List CommandRec) : Option CommandRec :=
  l.foldl selStep none

/-- The four-column UPDATE applied to the row fetchNextCommand assigns,
and equally the Command object the method returns. -/
def assignCmd (agentId : String) (now : Nat) (c : CommandRec) : CommandRec :=
  { c with status := .running, agent_id := some agentId,
           started_at := some now, updated_at := now }

/-- database.ts fetchNextCommand: inside one transaction, return the
agent's RUNNING command untouched if it has one; otherwise pick the
oldest PENDING row, mark it RUNNING for this agent, upsert the agent's
heartbeat with the command id, and return the updated record. -/
def fetchNextCommand (agentId : String) (now : Nat) (s : DbState) :
    DbState × Option CommandRec :=
  match getRunningFor agentId s with
  | some c => (s, some c)
  | none =>
    match selectPending s.commands with
    | none => (s, none)
    | some p =>
      let s1 : DbState := { s with commands := s.commands.map fun c =>
        if c.id = p.id then assignCmd agentId now c else c }
      let s2 := updateHeartbeat agentId (some p.id) now s1
      (s2, some (assignCmd agentId now p))

/-- database.ts completeCommand: require a row with this id, this owner
and status RUNNING, else return false with no write; otherwise set the
terminal status, the serialized result (error merged in when present),
completed_at and updated_at on the rows matching id and agent, clear the
agent's heartbeat command, and return whether any row changed. -/
def completeCommand (commandId agentId : String) (status : TermStatus)
    (result err : Option String) (now : Nat) (s : DbState) : DbState × Bool :=
  match s.commands.find? (fun c =>
      decide (c.id = commandId) && decide (c.agent_id = some agentId) &&
      decide (c.status = .running)) with
  | none => (s, false)
  | some _ =>
    let finalResult : StoredResult := ⟨result, err⟩
    let updated := s.commands.map fun c =>
      if decide (c.id = commandId) && decide (c.agent_id = some agentId) then
        { c with status := status.toStatus, result := some finalResult,
                 completed_at := some now, updated_at := now }
      else c
    let changes := (s.commands.filter (fun c =>
      decide (c.id = commandId) && decide (c.agent_id = some agentId))).length
    (updateHeartbeat agentId none now { s with commands := updated },
     decide (0 < changes))

/-- The reset applied by checkStaleCommands to each RUNNING row of a
stale agent. -/
def reclaimCmd (now : Nat) (c : CommandRec) : CommandRec :=
  { c with status := .pending, agent_id := none, started_at := none,
           updated_at := now }

/-- The per-agent body of the checkStaleCommands loop: reset this
agent's RUNNING rows to PENDING, count the changes, and clear the
agent's heartbeat current_command_id. -/
def staleReclaimStep (now : Nat) (acc : DbState × Nat) (agentId : String) :
    DbState × Nat :=
  let cnt := (acc.1.commands.filter (fun c =>
    decide (c.agent_id = some agentId) && decide (c.status = .running))).length
  let cmds := acc.1.commands.map fun c =>
    if decide (c.agent_id = some agentId) && decide (c.status = .running) then
      reclaimCmd now c
    else c
  let hbs := acc.1.heartbeats.map fun h =>
    if h.agent_id = agentId then { h with current_command_id := none } else h
  (⟨cmds, hbs⟩, acc.2 + cnt)

/-- database.ts checkStaleCommands: collect the agents whose
last_heartbeat is older than the cutoff AND whose current_command_id is
non-NULL, return 0 untouched when there are none, else run the reclaim
loop over them in one transaction. -/
def checkStaleCommands (timeoutMs now : Nat) (s : DbState) : DbState × Nat :=
  let cutoff := now - timeoutMs
  let staleAgents := (s.heartbeats.filter fun h =>
    decide (h.last_heartbeat < cutoff) && h.current_command_id.isSome).map
      (fun h => h.agent_id)
  if staleAgents.isEmpty then (s, 0)
  else staleAgents.foldl (staleReclaimStep now) (s, 0)

/-- The three ways the POST /agent/result handler answers once the body
has validated: 200, 200 with the idempotent-replay message, or 409. -/
inductive ResultAck where
  | ok
  | okIdem
  | conflict
deriving DecidableEq, Repr

/-- agent.ts POST /agent/result after body validation: run
completeCommand; on success answer 200; on failure re-read the command
and answer 200 (idempotent) when it exists and is already COMPLETED or
FAILED, else 409. -/
def handleResult (agentId commandId : String) (status : TermStatus)
    (result err : Option String) (now : Nat) (s : DbState) :
    DbState × ResultAck :=
  let r := completeCommand commandId agentId status result err now s
  if r.2 then (r.1, .ok)
  else
    match getCommand commandId r.1 with
    | some c =>
      if c.status = .completed ∨ c.status = .failed then (r.1, .okIdem)
      else (r.1, .conflict)
    | none => (r.1, .conflict)

/-! Agent-side executor model (src/agent/src/executor/commands.ts). -/

/-- A JavaScript string: a sequence of UTF-16 code units. -/
abbrev JsString := List Nat

def isHighSurrogate (u : Nat) : Bool := 0xD800 ≤ u && u ≤ 0xDBFF

def isLowSurrogate (u : Nat) : Bool := 0xDC00 ≤ u && u ≤ 0xDFFF

/-- Buffer.byteLength(text, 'utf8'): UTF-8 byte count of a UTF-16
sequence; a surrogate pair encodes to 4 bytes, a lone surrogate to the
3-byte replacement character. -/
def utf8ByteLength : JsString → Nat
  | [] => 0
  | u :: rest =>
    if u < 0x80 then 1 + utf8ByteLength rest
    else if u < 0x800 then 2 + utf8ByteLength rest
    else if isHighSurrogate u then
      match rest with
      | [] => 3
      | v :: rest2 =>
        if isLowSurrogate v then 4 + utf8ByteLength rest2
        else 3 + utf8ByteLength (v :: rest2)
    else 3 + utf8ByteLength rest

/-- Code units of an ASCII Lean string literal. -/
def strUnits (s : String) : JsString := s.data.map Char.toNat

/-- shared/src/index.ts MAX_BODY_SIZE. -/
def MAX_BODY_SIZE : Nat := 10240

/-- The marker text the executor appends to a truncated non-JSON body. -/
def truncMarker : JsString := strUnits "... [truncated]"

def appJsonUnits : JsString := strUnits "application/json"

/-- What the fetch call inside executeHttpGetJson produced: a response
(status, content-type header, body text) or a thrown transport/abort
error with its message. -/
inductive FetchOutcome where
  | success (status : Nat) (contentType : JsString) (body : JsString)
  | failure (message : String)

/-- shared/src/index.ts HttpGetJsonResult; body is a parsed JSON value,
a string, or null. -/
structure HttpResult (J : Type) where
  status : Nat
  body : Option (J ⊕ JsString)
  truncated : Bool
  bytesReturned : Nat
  error : Option String
deriving DecidableEq, Repr

/-- commands.ts executeHttpGetJson, parameterized over the runtime's
JSON.parse (jp returns none when JSON.parse throws): on a response,
count the UTF-8 bytes of the full text; when over MAX_BODY_SIZE, slice
the first MAX_BODY_SIZE UTF-16 code units, JSON-parse them when the
content type contains application/json, falling back to the sliced text
with the marker appended; otherwise parse or return the full text.  On
a thrown fetch error, return the zero result carrying the message. -/
def executeHttpGetJson {J : Type} (jp : JsString → Option J) :
    FetchOutcome → HttpResult J
  | .failure msg => ⟨0, none, false, 0, some msg⟩
  | .success st ct text =>
    let bytesReturned := utf8ByteLength text
    let isJson := decide (List.IsInfix appJsonUnits ct)
    if MAX_BODY_SIZE < bytesReturned then
      let truncText := text.take MAX_BODY_SIZE
      let body : J ⊕ JsString :=
        if isJson then
          match jp truncText with
          | some j => .inl j
          | none => .inr (truncText ++ truncMarker)
        else .inr (truncText ++ truncMarker)
      ⟨st, some body, true, bytesReturned, none⟩
    else
      let body : J ⊕ JsString :=
        if isJson then
          match jp text with
          | some j => .inl j
          | none => .inr text
        else .inr text
      ⟨st, some body, false, bytesReturned, none⟩

/-- commands.ts executeCommand on a command of type HTTP_GET_JSON:
throw when isHttpGetJsonPayload rejects the payload, else run
executeHttpGetJson (which never throws).  payloadValid embeds the
isHttpGetJsonPayload guard applied to the command's payload. -/
def executeHttpCommand {J : Type} (jp : JsString → Option J)
    (payloadValid : Bool) (outcome : FetchOutcome) :
    Except String (HttpResult J) :=
  if payloadValid then .ok (executeHttpGetJson jp outcome)
  else .error "Invalid HTTP_GET_JSON payload"

/-- Agent.executeAndReport (agent entry point): a normally returned
result is reported COMPLETED with that result; a thrown error is
reported FAILED with null result and the message as error. -/
def reportOf {R : Type} (outcome : Except String R) :
    TermStatus × Option R × Option String :=
  match outcome with
  | .ok r => (.completed, some r, none)
  | .error msg => (.failed, none, some msg)

/-! Invariant definitions (spec section 3). -/

/-- Spec invariant 1 at one record, as stated: status = Running iff
owner and started_at are both non-null. -/
def ownershipIff (c : CommandRec) : Bool :=
  decide ((c.status = .running) ↔
    (c.agent_id.isSome = true ∧ c.started_at.isSome = true))

def ownershipAgreement (s : DbState) : Bool := s.commands.all ownershipIff

/-- The ownership discipline the code actually maintains: a RUNNING row
has owner and started_at set, a PENDING row has both null; terminal
rows may retain them. -/
def ownershipWeakOk (c : CommandRec) : Bool :=
  decide ((c.status = .running →
      c.agent_id.isSome = true ∧ c.started_at.isSome = true) ∧
    (c.status = .pending → c.agent_id = none ∧ c.started_at = none))

def ownershipWeak (s : DbState) : Bool := s.commands.all ownershipWeakOk

/-- Uniqueness of the commands.id primary key, in Bool form. -/
def cmdIdsNodup : List CommandRec → Bool
  | [] => true
  | c :: rest =>
    rest.all (fun d => decide (c.id ≠ d.id)) && cmdIdsNodup rest

/-- Pairwise-distinct owners, applied below to the RUNNING rows. -/
def distinctAgents : List CommandRec → Bool
  | [] => true
  | c :: rest =>
    rest.all (fun d => decide (c.agent_id ≠ d.agent_id)) && distinctAgents rest

/-- Spec invariant 4: for any agent, at most one RUNNING command. -/
def singleAssignB (s : DbState) : Bool :=
  distinctAgents (s.commands.filter (fun c => decide (c.status = .running)))

/-- Primary-key lookup in the agent_heartbeats table. -/
def hbFind (agentId : String) (hbs : List HeartbeatRec) : Option HeartbeatRec :=
  hbs.find? (fun h => decide (h.agent_id = agentId))

/-- Spec invariant 6 at one record: a RUNNING command's owner has a
heartbeat row whose current_command_id is this command. -/
def hbCorrOk (hbs : List HeartbeatRec) (c : CommandRec) : Bool :=
  if c.status = .running then
    match c.agent_id with
    | some a =>
      match hbFind a hbs with
      | some h => decide (h.current_command_id = some c.id)
      | none => false
    | none => true
  else true

def hbCorr (s : DbState) : Bool := s.commands.all (hbCorrOk s.heartbeats)

/-! Generic helper lemmas. -/

theorem all_map_pointwise {α : Type} (p : α → Bool) (f : α → α) :
    ∀ l : List α, (∀ c, c ∈ l → p c = true → p (f c) = true) →
      l.all p = true → (l.map f).all p = true := by
  intro l hf hl
  simp only [List.all_eq_true, List.mem_map] at *
  rintro x ⟨c, hc, rfl⟩
  exact hf c hc (hl c hc)

theorem foldl_preserves {α β : Type} (P : α → Prop) (f : α → β → α)
    (hstep : ∀ acc x, P acc → P (f acc x)) :
    ∀ (l : List β) (init : α), P init → P (l.foldl f init) := by
  intro l
  induction l with
  | nil => intro init h; exact h
  | cons x xs ih => intro init h; exact ih _ (hstep _ _ h)

theorem updateHeartbeat_commands (a : String) (cid : Option String)
    (now : Nat) (s : DbState) :
    (updateHeartbeat a cid now s).commands = s.commands := by
  unfold updateHeartbeat
  split <;> rfl

/-! Concrete example states used by counterexamples and witnesses. -/

/-- A RUNNING command owned by agent A. -/
def exCmdRun : CommandRec :=
  ⟨"c1", "DELAY", "p", .running, none, some "A", 0, 0, some 0, none⟩

def exHbA : HeartbeatRec := ⟨"A", 0, some "c1"⟩

def exStateRun : DbState := ⟨[exCmdRun], [exHbA]⟩

/-!
Claim C1.  The spec states the ownership agreement as a biconditional:
status = RUNNING iff agent_id and started_at are both non-null.
completeCommand sets the terminal status but never clears agent_id or
started_at (its UPDATE touches only status, result, completed_at,
updated_at), so the resulting terminal record still has both fields
non-null and the biconditional fails.  The direction the code does
maintain is: RUNNING implies both non-null, and PENDING implies both
null.
-/

/-- C1 counterexample: a state satisfying the ownership-agreement
biconditional on which completeCommand produces a state violating it:
the completed record keeps agent_id = A and started_at set. -/
theorem C1_counterexample :
    ownershipAgreement exStateRun = true ∧
    ownershipAgreement
      (completeCommand "c1" "A" .completed none none 5 exStateRun).1 = false := by
  decide

/-- C1 amended: createCommand, fetchNextCommand, completeCommand,
checkStaleCommands and recoverFromCrash all preserve the one-directional
ownership discipline: a RUNNING record has agent_id and started_at
non-null, and a PENDING record has both null (terminal records may
retain the fields of their final run). -/
theorem C1_amended (s : DbState) (h : ownershipWeak s = true) :
    (∀ id ct p now s1 c1, createCommand id ct p now s = some (s1, c1) →
        ownershipWeak s1 = true) ∧
    (∀ a now, ownershipWeak (fetchNextCommand a now s).1 = true) ∧
    (∀ cid aid st r e now,
        ownershipWeak (completeCommand cid aid st r e now s).1 = true) ∧
    (∀ t now, ownershipWeak (checkStaleCommands t now s).1 = true) ∧
    (∀ now, ownershipWeak (recoverFromCrash now s) = true) := by
  refine ⟨?_, ?_, ?_, ?_, ?_⟩
  · intro id ct p now s1 c1 hcr
    unfold createCommand at hcr
    split at hcr
    · exact absurd hcr (by simp)
    · simp only [Option.some.injEq, Prod.mk.injEq] at hcr
      obtain ⟨hs1, -⟩ := hcr
      subst hs1
      unfold ownershipWeak at h ⊢
      simp only [List.all_append, List.all_cons, List.all_nil, Bool.and_true,
        Bool.and_eq_true] at *
      exact ⟨h, by simp [ownershipWeakOk]⟩
  · intro a now
    unfold fetchNextCommand
    cases hrun : getRunningFor a s with
    | some c => exact h
    | none =>
      cases hsel : selectPending s.commands with
      | none => exact h
      | some p =>
        simp only
        unfold ownershipWeak at h ⊢
        rw [updateHeartbeat_commands]
        refine all_map_pointwise _ _ _ ?_ h
        intro c _ hc
        split
        · simp [ownershipWeakOk, assignCmd]
        · exact hc
  · intro cid aid st r e now
    unfold completeCommand
    cases hf : s.commands.find? (fun c =>
        decide (c.id = cid) && decide (c.agent_id = some aid) &&
        decide (c.status = .running)) with
    | none => exact h
    | some c0 =>
      simp only
      unfold ownershipWeak at h ⊢
      rw [updateHeartbeat_commands]
      refine all_map_pointwise _ _ _ ?_ h
      intro c _ hc
      split
      · cases st <;> simp [ownershipWeakOk, TermStatus.toStatus]
      · exact hc
  · intro t now
    unfold checkStaleCommands
    simp only
    split
    · exact h
    · refine foldl_preserves (fun acc => ownershipWeak acc.1 = true)
        (staleReclaimStep now) ?_ _ (s, 0) h
      intro acc x hacc
      unfold ownershipWeak at hacc ⊢
      unfold staleReclaimStep
      simp only
      refine all_map_pointwise _ _ _ ?_ hacc
      intro c _ hc
      split
      · simp [ownershipWeakOk, reclaimCmd]
      · exact hc
  · intro now
    unfold recoverFromCrash
    unfold ownershipWeak at h ⊢
    simp only
    refine all_map_pointwise _ _ _ ?_ h
    intro c _ hc
    split
    · simp [ownershipWeakOk]
    · exact hc

/-- C1 amended witness at a concrete state. -/
theorem C1_witness : ownershipWeak (recoverFromCrash 3 exStateRun) = true :=
  (C1_amended exStateRun (by decide)).2.2.2.2 3

/-!
Claim C9.  In executeHttpGetJson every transport failure or abort is
caught and turned into the zero result carrying the error message, and
Agent.executeAndReport reports a normally returned result as COMPLETED;
FAILED is reported only when executeCommand throws.
-/

/-- C9: with a valid payload, a transport failure or deadline abort
makes the executor return the zero result (status 0, null body, not
truncated, 0 bytes, the message as error) without throwing, and the
agent reports the command COMPLETED with that result, never FAILED. -/
theorem C9_transport_failure_completed {J : Type} (jp : JsString → Option J)
    (msg : String) :
    executeHttpCommand jp true (.failure msg) =
      .ok ⟨0, none, false, 0, some msg⟩ ∧
    reportOf (executeHttpCommand jp true (.failure msg)) =
      (.completed, some ⟨0, none, false, 0, some msg⟩, none) ∧
    (reportOf (executeHttpCommand jp true (.failure msg))).1 ≠ .failed := by
  refine ⟨rfl, rfl, ?_⟩
  intro hcon
  exact TermStatus.noConfusion hcon

/-- C9 witness at a concrete failing fetch. -/
theorem C9_witness :
    reportOf (executeHttpCommand (fun _ => (none : Option Unit)) true
      (.failure "fetch failed")) =
      (.completed, some ⟨0, none, false, 0, some "fetch failed"⟩, none) :=
  (C9_transport_failure_completed (fun _ => (none : Option Unit))
    "fetch failed").2.1

/-!
Claim C10.  The executor records bytesReturned as the UTF-8 byte length
of the full body and truncates exactly when that length exceeds
MAX_BODY_SIZE, but the claim that the returned body is then the prefix
of the text whose byte length is exactly MAX_BODY_SIZE fails: the code
slices the first MAX_BODY_SIZE UTF-16 code units (text.slice) and, when
the slice is not parsed as JSON, appends a '... [truncated]' marker, so
already for an ASCII non-JSON body the returned text is longer than
MAX_BODY_SIZE bytes.
-/

/-- A JSON.parse stand-in that always fails. -/
def jpNone : JsString → Option Unit := fun _ => none

/-- An ASCII body one byte over the limit. -/
def bigText : JsString := List.replicate 10241 97

def exHttpBig : HttpResult Unit :=
  executeHttpGetJson jpNone (.success 200 [] bigText)

theorem utf8ByteLength_ascii (l : JsString) (h : ∀ u ∈ l, u < 128) :
    utf8ByteLength l = l.length := by
  induction l with
  | nil => rfl
  | cons u rest ih =>
    have hu : u < 128 := h u (List.mem_cons_self u rest)
    unfold utf8ByteLength
    rw [if_pos hu, ih (fun v hv => h v (List.mem_cons_of_mem _ hv))]
    simp [Nat.add_comm]

theorem utf8ByteLength_bigText : utf8ByteLength bigText = 10241 := by
  rw [utf8ByteLength_ascii]
  · rw [bigText]
    exact List.length_replicate _ _
  · intro u hu
    rw [bigText, List.mem_replicate] at hu
    omega

theorem bigText_take : bigText.take MAX_BODY_SIZE = List.replicate 10240 97 := by
  rw [bigText, MAX_BODY_SIZE, List.take_replicate]
  norm_num

/-- Unfolding of executeHttpGetJson on a response, by computation. -/
theorem executeHttpGetJson_success {J : Type} (jp : JsString → Option J)
    (st : Nat) (ct text : JsString) :
    executeHttpGetJson jp (.success st ct text) =
      if MAX_BODY_SIZE < utf8ByteLength text then
        ⟨st, some (if decide (List.IsInfix appJsonUnits ct) = true then
            match jp (text.take MAX_BODY_SIZE) with
            | some j => Sum.inl j
            | none => Sum.inr (text.take MAX_BODY_SIZE ++ truncMarker)
          else Sum.inr (text.take MAX_BODY_SIZE ++ truncMarker)),
         true, utf8ByteLength text, none⟩
      else
        ⟨st, some (if decide (List.IsInfix appJsonUnits ct) = true then
            match jp text with
            | some j => Sum.inl j
            | none => Sum.inr text
          else Sum.inr text),
         false, utf8ByteLength text, none⟩ := rfl

theorem exHttpBig_eq :
    exHttpBig =
      ⟨200, some (Sum.inr (List.replicate 10240 97 ++ truncMarker)),
       true, 10241, none⟩ := by
  have hjson : ¬ List.IsInfix appJsonUnits ([] : JsString) := by
    simp [List.infix_nil, appJsonUnits, strUnits]
  rw [exHttpBig, executeHttpGetJson_success,
    if_pos (by rw [utf8ByteLength_bigText, MAX_BODY_SIZE]; norm_num),
    if_neg (by simp [hjson]), utf8ByteLength_bigText, bigText_take]

/-- C10 counterexample: for a 10241-byte ASCII non-JSON body the result
is truncated, the 10240-unit prefix does have byte length exactly
MAX_BODY_SIZE, yet the returned body is that prefix with the marker
appended, not the prefix itself. -/
theorem C10_counterexample :
    exHttpBig.truncated = true ∧
    utf8ByteLength (bigText.take MAX_BODY_SIZE) = MAX_BODY_SIZE ∧
    exHttpBig.body = some (Sum.inr (bigText.take MAX_BODY_SIZE ++ truncMarker)) ∧
    exHttpBig.body ≠ some (Sum.inr (bigText.take MAX_BODY_SIZE)) := by
  refine ⟨by rw [exHttpBig_eq], ?_, by rw [exHttpBig_eq, bigText_take], ?_⟩
  · rw [bigText_take, utf8ByteLength_ascii]
    · rw [List.length_replicate, MAX_BODY_SIZE]
    · intro u hu
      rw [List.mem_replicate] at hu
      omega
  · rw [exHttpBig_eq, bigText_take]
    intro hcon
    simp only [Option.some.injEq, Sum.inr.injEq] at hcon
    have hlen := congrArg List.length hcon
    rw [List.length_append] at hlen
    have hm : truncMarker.length = 15 := by decide
    omega

/-- C10 amended: bytesReturned is the UTF-8 byte length of the full
body and truncation happens exactly when it exceeds MAX_BODY_SIZE, but
the truncated body is built from the first MAX_BODY_SIZE UTF-16 code
units of the text (JSON-parsed when the content type is JSON and the
prefix parses, otherwise with the marker appended); only for an all-
ASCII body is that slice exactly MAX_BODY_SIZE bytes long. -/
theorem C10_amended {J : Type} (jp : JsString → Option J) (st : Nat)
    (ct text : JsString) :
    (executeHttpGetJson jp (.success st ct text)).bytesReturned =
      utf8ByteLength text ∧
    ((executeHttpGetJson jp (.success st ct text)).truncated = true ↔
      MAX_BODY_SIZE < utf8ByteLength text) ∧
    (MAX_BODY_SIZE < utf8ByteLength text →
      (executeHttpGetJson jp (.success st ct text)).body = some (
        if List.IsInfix appJsonUnits ct then
          match jp (text.take MAX_BODY_SIZE) with
          | some j => Sum.inl j
          | none => Sum.inr (text.take MAX_BODY_SIZE ++ truncMarker)
        else Sum.inr (text.take MAX_BODY_SIZE ++ truncMarker))) ∧
    ((∀ u ∈ text, u < 128) → MAX_BODY_SIZE < utf8ByteLength text →
      utf8ByteLength (text.take MAX_BODY_SIZE) = MAX_BODY_SIZE) := by
  refine ⟨?_, ?_, ?_, ?_⟩
  · rw [executeHttpGetJson_success]
    by_cases hb : MAX_BODY_SIZE < utf8ByteLength text
    · rw [if_pos hb]
    · rw [if_neg hb]
  · rw [executeHttpGetJson_success]
    by_cases hb : MAX_BODY_SIZE < utf8ByteLength text
    · rw [if_pos hb]
      simp [hb]
    · rw [if_neg hb]
      simp [hb]
  · intro hgt
    rw [executeHttpGetJson_success, if_pos hgt]
    by_cases hj : List.IsInfix appJsonUnits ct
    · rw [if_pos (decide_eq_true hj), if_pos hj]
    · rw [if_neg (by simp [hj]), if_neg hj]
  · intro hascii hgt
    have hb : utf8ByteLength text = text.length := utf8ByteLength_ascii text hascii
    have htk : utf8ByteLength (text.take MAX_BODY_SIZE) =
        (text.take MAX_BODY_SIZE).length := by
      refine utf8ByteLength_ascii _ ?_
      intro u hu
      exact hascii u (List.mem_of_mem_take hu)
    rw [htk, List.length_take]
    omega

/-- C10 amended witness: the ASCII conclusion applied to the concrete
oversize body. -/
theorem C10_witness : utf8ByteLength (bigText.take MAX_BODY_SIZE) = MAX_BODY_SIZE :=
  (C10_amended jpNone 200 [] bigText).2.2.2
    (fun u hu => by
      rw [bigText, List.mem_replicate] at hu
      omega)
    (by rw [utf8ByteLength_bigText, MAX_BODY_SIZE]; norm_num)

/-!
Claim C3.  completeCommand guards its writes behind the single
SELECT ... WHERE id = ? AND agent_id = ? AND status = 'RUNNING'; when
the row is absent it returns false before any UPDATE or heartbeat
write, and when present the UPDATE matches at least that row so the
returned change count is positive.
-/

theorem completeCommand_not_found (cid aid : String) (st : TermStatus)
    (r e : Option String) (now : Nat) (s : DbState)
    (h : s.commands.find? (fun c =>
      decide (c.id = cid) && decide (c.agent_id = some aid) &&
      decide (c.status = .running)) = none) :
    completeCommand cid aid st r e now s = (s, false) := by
  unfold completeCommand
  rw [h]

theorem completeCommand_found_true (cid aid : String) (st : TermStatus)
    (r e : Option String) (now : Nat) (s : DbState) (c0 : CommandRec)
    (h : s.commands.find? (fun c =>
      decide (c.id = cid) && decide (c.agent_id = some aid) &&
      decide (c.status = .running)) = some c0) :
    (completeCommand cid aid st r e now s).2 = true := by
  have hmem : c0 ∈ s.commands := List.mem_of_find?_eq_some h
  have hp := List.find?_some h
  simp only [Bool.and_eq_true, decide_eq_true_eq] at hp
  have hflt : c0 ∈ s.commands.filter (fun c =>
      decide (c.id = cid) && decide (c.agent_id = some aid)) := by
    rw [List.mem_filter]
    exact ⟨hmem, by simp [hp.1.1, hp.1.2]⟩
  unfold completeCommand
  rw [h]
  simp only [decide_eq_true_eq]
  exact List.length_pos_of_mem hflt

/-- C3: completeCommand returns true exactly when some stored record
has this id, this agent as owner and status RUNNING; whenever it
returns false the whole database state (commands and heartbeats) is
returned unchanged. -/
theorem C3_complete_true_iff_running_owner (cid aid : String) (st : TermStatus)
    (r e : Option String) (now : Nat) (s : DbState) :
    ((completeCommand cid aid st r e now s).2 = true ↔
      ∃ c ∈ s.commands,
        c.id = cid ∧ c.agent_id = some aid ∧ c.status = .running) ∧
    ((completeCommand cid aid st r e now s).2 = false →
      (completeCommand cid aid st r e now s).1 = s) := by
  cases hf : s.commands.find? (fun c =>
      decide (c.id = cid) && decide (c.agent_id = some aid) &&
      decide (c.status = .running)) with
  | none =>
    rw [List.find?_eq_none] at hf
    constructor
    · rw [completeCommand_not_found cid aid st r e now s
        (List.find?_eq_none.mpr hf)]
      simp only [Bool.false_eq_true, false_iff]
      rintro ⟨c, hc, h1, h2, h3⟩
      exact hf c hc (by simp [h1, h2, h3])
    · intro _
      rw [completeCommand_not_found cid aid st r e now s
        (List.find?_eq_none.mpr hf)]
  | some c0 =>
    have htrue := completeCommand_found_true cid aid st r e now s c0 hf
    constructor
    · rw [htrue]
      simp only [true_iff]
      have hp := List.find?_some hf
      simp only [Bool.and_eq_true, decide_eq_true_eq] at hp
      exact ⟨c0, List.mem_of_find?_eq_some hf, hp.1.1, hp.1.2, hp.2⟩
    · intro hcon
      rw [htrue] at hcon
      cases hcon

/-- C3 witness: a report for an unknown command returns false and
leaves the state untouched. -/
theorem C3_witness :
    (completeCommand "c9" "B" .completed none none 4 exStateRun).1 = exStateRun :=
  (C3_complete_true_iff_running_owner "c9" "B" .completed none none 4
    exStateRun).2 (by decide)

/-!
Claim C2.  fetchNextCommand first looks for a RUNNING command of the
requesting agent and returns it with no writes; hence a repeated fetch
returns the very record the first fetch produced.
-/

theorem selStep_some_cases (acc : Option CommandRec) (c r : CommandRec)
    (h : selStep acc c = some r) :
    (r = c ∧ c.status = .pending) ∨ acc = some r := by
  unfold selStep at h
  by_cases hc : c.status = .pending
  · rw [if_pos hc] at h
    cases acc with
    | none =>
      simp only [Option.some.injEq] at h
      exact Or.inl ⟨h.symm, hc⟩
    | some b =>
      dsimp only at h
      by_cases hlt : c.created_at < b.created_at
      · rw [if_pos hlt] at h
        simp only [Option.some.injEq] at h
        exact Or.inl ⟨h.symm, hc⟩
      · rw [if_neg hlt] at h
        exact Or.inr h
  · rw [if_neg hc] at h
    exact Or.inr h

theorem selStep_le_head (acc : Option CommandRec) (c r : CommandRec)
    (hc : c.status = .pending) (h : selStep acc c = some r) :
    r.created_at ≤ c.created_at ∨
      (∃ b, acc = some b ∧ r = b ∧ b.created_at ≤ c.created_at) := by
  unfold selStep at h
  rw [if_pos hc] at h
  cases acc with
  | none =>
    simp only [Option.some.injEq] at h
    exact Or.inl (h ▸ Nat.le_refl _)
  | some b =>
    dsimp only at h
    by_cases hlt : c.created_at < b.created_at
    · rw [if_pos hlt] at h
      simp only [Option.some.injEq] at h
      exact Or.inl (h ▸ Nat.le_refl _)
    · rw [if_neg hlt] at h
      simp only [Option.some.injEq] at h
      exact Or.inr ⟨b, rfl, h.symm, by omega⟩

theorem selStep_le_acc (acc : Option CommandRec) (b c r : CommandRec)
    (hb : acc = some b) (h : selStep acc c = some r) :
    r.created_at ≤ b.created_at := by
  subst hb
  unfold selStep at h
  by_cases hc : c.status = .pending
  · rw [if_pos hc] at h
    dsimp only at h
    by_cases hlt : c.created_at < b.created_at
    · rw [if_pos hlt] at h
      simp only [Option.some.injEq] at h
      rw [← h]
      omega
    · rw [if_neg hlt] at h
      simp only [Option.some.injEq] at h
      exact h ▸ Nat.le_refl _
  · rw [if_neg hc] at h
    simp only [Option.some.injEq] at h
    exact h ▸ Nat.le_refl _

theorem selStep_pending_some (acc : Option CommandRec) (c : CommandRec)
    (hc : c.status = .pending) : ∃ r, selStep acc c = some r := by
  unfold selStep
  rw [if_pos hc]
  cases acc with
  | none => exact ⟨c, rfl⟩
  | some b =>
    dsimp only
    by_cases hlt : c.created_at < b.created_at
    · rw [if_pos hlt]
      exact ⟨c, rfl⟩
    · rw [if_neg hlt]
      exact ⟨b, rfl⟩

theorem selStep_acc_some (acc : Option CommandRec) (b c : CommandRec)
    (hb : acc = some b) : ∃ r, selStep acc c = some r := by
  subst hb
  unfold selStep
  by_cases hc : c.status = .pending
  · rw [if_pos hc]
    dsimp only
    by_cases hlt : c.created_at < b.created_at
    · rw [if_pos hlt]
      exact ⟨c, rfl⟩
    · rw [if_neg hlt]
      exact ⟨b, rfl⟩
  · rw [if_neg hc]
    exact ⟨b, rfl⟩

theorem selectPending_fold_spec :
    ∀ (l : List CommandRec) (acc : Option CommandRec) (p : CommandRec),
      l.foldl selStep acc = some p →
      (acc = some p ∨ (p ∈ l ∧ p.status = .pending)) ∧
      (∀ c ∈ l, c.status = .pending → p.created_at ≤ c.created_at) ∧
      (∀ b, acc = some b → p.created_at ≤ b.created_at) := by
  intro l
  induction l with
  | nil =>
    intro acc p h
    simp only [List.foldl_nil] at h
    refine ⟨Or.inl h, ?_, ?_⟩
    · intro c hc hcp
      exact absurd hc (List.not_mem_nil c)
    · intro b hb
      rw [hb] at h
      simp only [Option.some.injEq] at h
      simp [h]
  | cons c rest ih =>
    intro acc p h
    simp only [List.foldl_cons] at h
    obtain ⟨hmem, hrest, hacc'⟩ := ih (selStep acc c) p h
    have hstep : ∀ r, selStep acc c = some r → p.created_at ≤ r.created_at :=
      fun r hr => hacc' r hr
    refine ⟨?_, ?_, ?_⟩
    · rcases hmem with h1 | h2
      · rcases selStep_some_cases acc c p h1 with ⟨hrc, hcp⟩ | hap
        · exact Or.inr ⟨hrc ▸ List.mem_cons_self c rest, hrc ▸ hcp⟩
        · exact Or.inl hap
      · exact Or.inr ⟨List.mem_cons_of_mem _ h2.1, h2.2⟩
    · intro d hd hdp
      rcases List.mem_cons.mp hd with rfl | hdr
      · obtain ⟨r, hsel⟩ := selStep_pending_some acc d hdp
        have hpr := hstep r hsel
        rcases selStep_le_head acc d r hdp hsel with hle | ⟨b, _, hrb, hble⟩
        · omega
        · rw [hrb] at hpr
          omega
      · exact hrest d hdr hdp
    · intro b hb
      obtain ⟨r, hsel⟩ := selStep_acc_some acc b c hb
      have hpr := hstep r hsel
      have hrb := selStep_le_acc acc b c r hb hsel
      omega

theorem cmdIdsNodup_head (c : CommandRec) (rest : List CommandRec)
    (h : cmdIdsNodup (c :: rest) = true) :
    (∀ d ∈ rest, c.id ≠ d.id) ∧ cmdIdsNodup rest = true := by
  unfold cmdIdsNodup at h
  simp only [Bool.and_eq_true, List.all_eq_true, decide_eq_true_eq] at h
  exact ⟨h.1, h.2⟩

/-- After the assignment UPDATE, the RUNNING-for-this-agent lookup finds
exactly the assigned record. -/
theorem find?_map_assign (a : String) (now : Nat) (p : CommandRec) :
    ∀ l : List CommandRec, cmdIdsNodup l = true → p ∈ l →
      (∀ c ∈ l, ¬(c.agent_id = some a ∧ c.status = .running)) →
      (l.map fun c => if c.id = p.id then assignCmd a now c else c).find?
        (fun c => decide (c.agent_id = some a) && decide (c.status = .running)) =
        some (assignCmd a now p) := by
  intro l
  induction l with
  | nil => intro _ hm _; cases hm
  | cons c rest ih =>
    intro hnd hm hno
    obtain ⟨hndh, hndt⟩ := cmdIdsNodup_head c rest hnd
    simp only [List.map_cons]
    by_cases hcp : c.id = p.id
    · have hcpeq : c = p := by
        rcases List.mem_cons.mp hm with rfl | hpr
        · rfl
        · exact absurd hcp (hndh p hpr)
      rw [if_pos hcp, List.find?_cons_of_pos _ (by simp [assignCmd]), hcpeq]
    · have hpr : p ∈ rest := by
        rcases List.mem_cons.mp hm with rfl | hpr
        · exact absurd rfl hcp
        · exact hpr
      rw [if_neg hcp, List.find?_cons_of_neg _ (by
        simp only [Bool.and_eq_true, decide_eq_true_eq, not_and]
        intro h1 h2
        exact hno c (List.mem_cons_self c rest) ⟨h1, h2⟩)]
      exact ih hndt hpr (fun d hd => hno d (List.mem_cons_of_mem _ hd))

theorem fetchNextCommand_running (a : String) (now : Nat) (s : DbState)
    (c : CommandRec) (h : getRunningFor a s = some c) :
    fetchNextCommand a now s = (s, some c) := by
  unfold fetchNextCommand
  rw [h]

theorem fetchNextCommand_idle (a : String) (now : Nat) (s : DbState)
    (h : getRunningFor a s = none) (hs : selectPending s.commands = none) :
    fetchNextCommand a now s = (s, none) := by
  unfold fetchNextCommand
  rw [h, hs]

theorem fetchNextCommand_assign (a : String) (now : Nat) (s : DbState)
    (p : CommandRec) (h : getRunningFor a s = none)
    (hs : selectPending s.commands = some p) :
    fetchNextCommand a now s =
      (updateHeartbeat a (some p.id) now
        { s with commands := s.commands.map fun c =>
            if c.id = p.id then assignCmd a now c else c },
       some (assignCmd a now p)) := by
  unfold fetchNextCommand
  rw [h, hs]

/-- C2: a fetch finding an existing RUNNING command for the agent
returns it with the state untouched, and (given unique command ids, the
primary-key constraint) two consecutive fetches by the same agent
return equal Command records whatever the two call times are. -/
theorem C2_fetch_idempotent (s : DbState) (a : String) (now1 now2 : Nat)
    (hids : cmdIdsNodup s.commands = true) :
    (∀ c, getRunningFor a s = some c →
      fetchNextCommand a now1 s = (s, some c)) ∧
    (fetchNextCommand a now2 (fetchNextCommand a now1 s).1).2 =
      (fetchNextCommand a now1 s).2 := by
  constructor
  · intro c h
    exact fetchNextCommand_running a now1 s c h
  · cases hrun : getRunningFor a s with
    | some c =>
      rw [fetchNextCommand_running a now1 s c hrun,
        fetchNextCommand_running a now2 s c hrun]
    | none =>
      cases hsel : selectPending s.commands with
      | none =>
        rw [fetchNextCommand_idle a now1 s hrun hsel,
          fetchNextCommand_idle a now2 s hrun hsel]
      | some p =>
        have hspec := selectPending_fold_spec s.commands none p hsel
        have hpmem : p ∈ s.commands := by
          rcases hspec.1 with hcon | hp
          · cases hcon
          · exact hp.1
        have hnone : ∀ c ∈ s.commands,
            ¬(c.agent_id = some a ∧ c.status = .running) := by
          unfold getRunningFor at hrun
          rw [List.find?_eq_none] at hrun
          intro c hc hcon
          exact hrun c hc (by simp [hcon.1, hcon.2])
        have hrun2 : getRunningFor a (fetchNextCommand a now1 s).1 =
            some (assignCmd a now1 p) := by
          rw [fetchNextCommand_assign a now1 s p hrun hsel]
          unfold getRunningFor
          rw [updateHeartbeat_commands]
          exact find?_map_assign a now1 p s.commands hids hpmem hnone
        rw [fetchNextCommand_running a now2 _ _ hrun2,
          fetchNextCommand_assign a now1 s p hrun hsel]

/-- C2 witness: the agent that owns a RUNNING command gets it back, and
the repeated call agrees. -/
theorem C2_witness :
    fetchNextCommand "A" 7 exStateRun = (exStateRun, some exCmdRun) ∧
    (fetchNextCommand "A" 8 (fetchNextCommand "A" 7 exStateRun).1).2 =
      (fetchNextCommand "A" 7 exStateRun).2 :=
  ⟨(C2_fetch_idempotent exStateRun "A" 7 8 (by decide)).1 exCmdRun (by decide),
   (C2_fetch_idempotent exStateRun "A" 7 8 (by decide)).2⟩

/-!
Claim C5.  The assignment query is
SELECT ... WHERE status = 'PENDING' ORDER BY created_at ASC LIMIT 1:
it has no secondary ordering key, so ties on created_at fall back to
table (rowid) order, not to id order as the claim states.  The
minimality over created_at does hold.
-/

def cmdB5 : CommandRec :=
  ⟨"b", "DELAY", "p", .pending, none, none, 5, 5, none, none⟩

def cmdA5 : CommandRec :=
  ⟨"a", "DELAY", "p", .pending, none, none, 5, 5, none, none⟩

/-- Two PENDING commands with equal created_at, the one with the larger
id inserted first. -/
def exStateTie : DbState := ⟨[cmdB5, cmdA5], []⟩

/-- C5 counterexample: with two PENDING commands tied on created_at,
fetchNextCommand assigns the first-inserted one (id b), not the one
with the smaller id (a). -/
theorem C5_counterexample :
    cmdA5.status = .pending ∧ cmdB5.status = .pending ∧
    cmdA5.created_at = cmdB5.created_at ∧ cmdA5.id < cmdB5.id ∧
    ((fetchNextCommand "w" 10 exStateTie).2.map CommandRec.id) = some "b" := by
  refine ⟨by decide, by decide, by decide, ?_, by decide⟩
  show ("a" : String) < "b"
  rw [String.lt_iff_toList_lt]
  decide

/-- C5 amended: when the agent has no RUNNING command and a command is
returned, it is a PENDING command with minimal created_at among all
PENDING commands (ties resolved by insertion order, not id), assigned
to the agent. -/
theorem C5_amended (s : DbState) (a : String) (now : Nat) (c : CommandRec)
    (hno : getRunningFor a s = none)
    (hc : (fetchNextCommand a now s).2 = some c) :
    ∃ p ∈ s.commands, p.status = .pending ∧ c = assignCmd a now p ∧
      ∀ q ∈ s.commands, q.status = .pending →
        p.created_at ≤ q.created_at := by
  cases hsel : selectPending s.commands with
  | none =>
    rw [fetchNextCommand_idle a now s hno hsel] at hc
    cases hc
  | some p =>
    rw [fetchNextCommand_assign a now s p hno hsel] at hc
    simp only [Option.some.injEq] at hc
    have hspec := selectPending_fold_spec s.commands none p hsel
    have hp : p ∈ s.commands ∧ p.status = .pending := by
      rcases hspec.1 with h1 | h2
      · cases h1
      · exact h2
    exact ⟨p, hp.1, hp.2, hc.symm, hspec.2.1⟩

def cmdOld : CommandRec :=
  ⟨"o", "DELAY", "p", .pending, none, none, 1, 1, none, none⟩

def cmdNew : CommandRec :=
  ⟨"n", "DELAY", "p", .pending, none, none, 2, 2, none, none⟩

def exStateFifo : DbState := ⟨[cmdNew, cmdOld], []⟩

/-- C5 amended witness: with two PENDING commands of distinct ages the
earlier-created one is assigned. -/
theorem C5_witness :
    ∃ p ∈ exStateFifo.commands, p.status = .pending ∧
      assignCmd "w" 9 cmdOld = assignCmd "w" 9 p ∧
      ∀ q ∈ exStateFifo.commands, q.status = .pending →
        p.created_at ≤ q.created_at :=
  C5_amended exStateFifo "w" 9 (assignCmd "w" 9 cmdOld) (by decide) (by decide)

/-!
Claim C6.  On a false return from completeCommand the handler re-reads
the command and acknowledges 200 whenever it exists and is in either
terminal state: it checks neither that the stored terminal state equals
the one the report requested nor that the record's agent_id equals the
reporting agent.
-/

theorem completeCommand_false_unchanged (cid aid : String) (st : TermStatus)
    (r e : Option String) (now : Nat) (s : DbState)
    (hfail : (completeCommand cid aid st r e now s).2 = false) :
    completeCommand cid aid st r e now s = (s, false) := by
  cases hf : s.commands.find? (fun c =>
      decide (c.id = cid) && decide (c.agent_id = some aid) &&
      decide (c.status = .running)) with
  | none => exact completeCommand_not_found cid aid st r e now s hf
  | some c0 =>
    have htrue := completeCommand_found_true cid aid st r e now s c0 hf
    rw [hfail] at htrue
    cases htrue

theorem isTerminal_iff (st : CmdStatus) :
    st.isTerminal = true ↔ st = .completed ∨ st = .failed := by
  cases st <;> simp [CmdStatus.isTerminal]

/-- A failed command record already carrying an owner, used by the C6
counterexample and witness. -/
def cmdF6 : CommandRec :=
  ⟨"c1", "DELAY", "p", .failed, none, some "A", 0, 0, some 0, some 1⟩

def exStateF6 : DbState := ⟨[cmdF6], []⟩

/-- C6 counterexample: agent B reports COMPLETED for a command that
agent A finished as FAILED; completeCommand returns false, the stored
status differs from the requested one and the former owner is not B,
yet the handler acknowledges 200 (idempotent) instead of the 409 the
claim requires. -/
theorem C6_counterexample :
    cmdF6.status ≠ .completed ∧ cmdF6.agent_id ≠ some "B" ∧
    (completeCommand "c1" "B" .completed none none 5 exStateF6).2 = false ∧
    (handleResult "B" "c1" .completed none none 5 exStateF6).2 = .okIdem := by
  decide

/-- C6 amended: when completeCommand returns false, the handler
acknowledges 200 exactly when the command exists and is in some
terminal state (COMPLETED or FAILED) - regardless of which terminal
state was requested and of which agent reports - and responds 409
conflict exactly otherwise. -/
theorem handleResult_of_fail (aid cid : String) (st : TermStatus)
    (r e : Option String) (now : Nat) (s : DbState)
    (hfail : (completeCommand cid aid st r e now s).2 = false) :
    handleResult aid cid st r e now s =
      (match getCommand cid s with
       | some c =>
         if c.status = .completed ∨ c.status = .failed
         then (s, ResultAck.okIdem) else (s, ResultAck.conflict)
       | none => (s, ResultAck.conflict)) := by
  have hunch := completeCommand_false_unchanged cid aid st r e now s hfail
  unfold handleResult
  rw [hunch]
  rfl

theorem C6_amended (aid cid : String) (st : TermStatus) (r e : Option String)
    (now : Nat) (s : DbState)
    (hfail : (completeCommand cid aid st r e now s).2 = false) :
    ((handleResult aid cid st r e now s).2 = .okIdem ↔
      ∃ c, getCommand cid s = some c ∧ c.status.isTerminal = true) ∧
    ((handleResult aid cid st r e now s).2 = .conflict ↔
      ¬∃ c, getCommand cid s = some c ∧ c.status.isTerminal = true) := by
  rw [handleResult_of_fail aid cid st r e now s hfail]
  cases hget : getCommand cid s with
  | none =>
    refine ⟨⟨fun hcon => ResultAck.noConfusion hcon, ?_⟩,
            ⟨fun _ => ?_, fun _ => rfl⟩⟩
    · rintro ⟨c, hc, -⟩
      exact Option.noConfusion hc
    · rintro ⟨c, hc, -⟩
      exact Option.noConfusion hc
  | some c =>
    dsimp only
    by_cases ht : c.status = .completed ∨ c.status = .failed
    · rw [if_pos ht]
      have hex : ∃ d, some c = some d ∧ d.status.isTerminal = true :=
        ⟨c, rfl, (isTerminal_iff c.status).mpr ht⟩
      exact ⟨⟨fun _ => hex, fun _ => rfl⟩,
             ⟨fun hcon => ResultAck.noConfusion hcon,
              fun hno => absurd hex hno⟩⟩
    · rw [if_neg ht]
      have hnex : ¬∃ d, some c = some d ∧ d.status.isTerminal = true := by
        rintro ⟨d, hd, hterm⟩
        rw [Option.some.injEq] at hd
        subst hd
        exact ht ((isTerminal_iff c.status).mp hterm)
      exact ⟨⟨fun hcon => ResultAck.noConfusion hcon,
              fun hex => absurd hex hnex⟩,
             ⟨fun _ => hnex, fun _ => rfl⟩⟩

/-- C6 amended witness: the cross-agent, cross-status replay is
acknowledged because the record is terminal. -/
theorem C6_witness :
    (handleResult "B" "c1" .completed none none 5 exStateF6).2 = .okIdem :=
  ((C6_amended "B" "c1" .completed none none 5 exStateF6 (by decide)).1).mpr
    ⟨cmdF6, by decide, by decide⟩

/-!
Claim C4.  Every mutating operation guards its UPDATE with a status
test (RUNNING for completeCommand, checkStaleCommands and
recoverFromCrash; PENDING for the row fetchNextCommand assigns), so a
COMPLETED or FAILED record is never touched at all - not even its
updated_at.
-/

theorem cmdIdsNodup_unique :
    ∀ l : List CommandRec, cmdIdsNodup l = true →
      ∀ c ∈ l, ∀ d ∈ l, c.id = d.id → c = d := by
  intro l
  induction l with
  | nil =>
    intro _ c hc
    cases hc
  | cons x rest ih =>
    intro hnd c hc d hd heq
    obtain ⟨hh, htl⟩ := cmdIdsNodup_head x rest hnd
    rcases List.mem_cons.mp hc with rfl | hcr
    · rcases List.mem_cons.mp hd with rfl | hdr
      · rfl
      · exact absurd heq (hh d hdr)
    · rcases List.mem_cons.mp hd with rfl | hdr
      · exact absurd heq.symm (hh c hcr)
      · exact ih htl c hcr d hdr heq

theorem completeCommand_found_eq (cid aid : String) (st : TermStatus)
    (r e : Option String) (now : Nat) (s : DbState) (c0 : CommandRec)
    (hf : s.commands.find? (fun c =>
      decide (c.id = cid) && decide (c.agent_id = some aid) &&
      decide (c.status = .running)) = some c0) :
    (completeCommand cid aid st r e now s).1 =
      updateHeartbeat aid none now
        { s with commands := s.commands.map fun c =>
            if decide (c.id = cid) && decide (c.agent_id = some aid) then
              { c with status := st.toStatus, result := some ⟨r, e⟩,
                       completed_at := some now, updated_at := now }
            else c } := by
  unfold completeCommand
  rw [hf]

/-- C4: given the id primary key, a record in a terminal state is
returned unchanged - every field, updated_at included - at its position
by completeCommand, fetchNextCommand, checkStaleCommands and
recoverFromCrash; in particular its status never returns to PENDING or
RUNNING. -/
theorem C4_terminal_immutability (s : DbState)
    (hids : cmdIdsNodup s.commands = true)
    (i : Nat) (c : CommandRec) (hc : s.commands[i]? = some c)
    (ht : c.status.isTerminal = true) :
    (∀ cid aid st r e now,
      (completeCommand cid aid st r e now s).1.commands[i]? = some c) ∧
    (∀ a now, (fetchNextCommand a now s).1.commands[i]? = some c) ∧
    (∀ t now, (checkStaleCommands t now s).1.commands[i]? = some c) ∧
    (∀ now, (recoverFromCrash now s).commands[i]? = some c) := by
  have hmem : c ∈ s.commands := List.getElem?_mem hc
  have hnr : c.status ≠ .running := by
    rcases (isTerminal_iff c.status).mp ht with h | h <;> rw [h] <;>
      intro hcon <;> cases hcon
  have hnp : c.status ≠ .pending := by
    rcases (isTerminal_iff c.status).mp ht with h | h <;> rw [h] <;>
      intro hcon <;> cases hcon
  refine ⟨?_, ?_, ?_, ?_⟩
  · intro cid aid st r e now
    cases hf : s.commands.find? (fun c =>
        decide (c.id = cid) && decide (c.agent_id = some aid) &&
        decide (c.status = .running)) with
    | none =>
      rw [completeCommand_not_found cid aid st r e now s hf]
      exact hc
    | some c0 =>
      rw [completeCommand_found_eq cid aid st r e now s c0 hf,
        updateHeartbeat_commands]
      have hc0mem := List.mem_of_find?_eq_some hf
      have hp := List.find?_some hf
      simp only [Bool.and_eq_true, decide_eq_true_eq] at hp
      have hcond : ¬(c.id = cid ∧ c.agent_id = some aid) := by
        rintro ⟨h1, -⟩
        have hceq : c = c0 :=
          cmdIdsNodup_unique s.commands hids c hmem c0 hc0mem
            (h1.trans hp.1.1.symm)
        rw [hceq, hp.2] at hnr
        exact hnr rfl
      simp only [List.getElem?_map, hc, Option.map_some']
      rw [if_neg (by
        simp only [Bool.and_eq_true, decide_eq_true_eq, not_and]
        intro h1 h2
        exact hcond ⟨h1, h2⟩)]
  · intro a now
    cases hrun : getRunningFor a s with
    | some d =>
      rw [fetchNextCommand_running a now s d hrun]
      exact hc
    | none =>
      cases hsel : selectPending s.commands with
      | none =>
        rw [fetchNextCommand_idle a now s hrun hsel]
        exact hc
      | some p =>
        rw [fetchNextCommand_assign a now s p hrun hsel]
        rw [updateHeartbeat_commands]
        have hspec := selectPending_fold_spec s.commands none p hsel
        have hp : p ∈ s.commands ∧ p.status = .pending := by
          rcases hspec.1 with h1 | h2
          · cases h1
          · exact h2
        have hcond : ¬(c.id = p.id) := by
          intro heq
          have hceq : c = p :=
            cmdIdsNodup_unique s.commands hids c hmem p hp.1 heq
          rw [hceq, hp.2] at hnp
          exact hnp rfl
        simp only [List.getElem?_map, hc, Option.map_some']
        rw [if_neg hcond]
  · intro t now
    unfold checkStaleCommands
    by_cases hemp : ((s.heartbeats.filter fun h =>
        decide (h.last_heartbeat < now - t) &&
        h.current_command_id.isSome).map (fun h => h.agent_id)).isEmpty
    · rw [if_pos hemp]
      exact hc
    · rw [if_neg hemp]
      refine foldl_preserves (fun acc => acc.1.commands[i]? = some c)
        (staleReclaimStep now) ?_ _ (s, 0) hc
      intro acc x hacc
      unfold staleReclaimStep
      simp only [List.getElem?_map, hacc, Option.map_some']
      rw [if_neg (by
        simp only [Bool.and_eq_true, decide_eq_true_eq, not_and]
        intro _ h2
        exact hnr h2)]
  · intro now
    unfold recoverFromCrash
    simp only [List.getElem?_map, hc, Option.map_some']
    rw [if_neg hnr]

/-- A finished command record together with its former owner's idle
heartbeat row. -/
def cmdDone : CommandRec :=
  ⟨"d", "DELAY", "p", .completed, some ⟨some "r", none⟩, some "A", 0, 1,
   some 0, some 1⟩

def exStateDone : DbState := ⟨[cmdDone], [⟨"A", 0, none⟩]⟩

/-- C4 witness: recoverFromCrash leaves a COMPLETED record untouched. -/
theorem C4_witness :
    (recoverFromCrash 9 exStateDone).commands[0]? = some cmdDone :=
  (C4_terminal_immutability exStateDone (by decide) 0 cmdDone (by decide)
    (by decide)).2.2.2 9

/-!
Claim C7.  checkStaleCommands selects agents with
WHERE last_heartbeat < cutoff AND current_command_id IS NOT NULL, so a
RUNNING command whose dead owner's heartbeat row carries a NULL
current_command_id (possible after a bare heartbeat, which overwrites
the column) is never reclaimed - contradicting the claim's final
"regardless of the state of the owner's heartbeat record".
-/

/-- Whether an agent is selected by the stale query: it has a heartbeat
row with last_heartbeat below the cutoff AND a non-null
current_command_id. -/
def staleAgentB (cutoff : Nat) (s : DbState) (a : String) : Bool :=
  s.heartbeats.any fun h =>
    decide (h.agent_id = a) && decide (h.last_heartbeat < cutoff) &&
    h.current_command_id.isSome

/-- A stale heartbeat row whose current_command_id is NULL. -/
def hbIdle : HeartbeatRec := ⟨"A", 0, none⟩

def exStateStaleNull : DbState := ⟨[exCmdRun], [hbIdle]⟩

/-- C7 counterexample: agent A owns a RUNNING command and its heartbeat
is far older than the cutoff, but because the heartbeat row's
current_command_id is NULL the stale check reclaims nothing and leaves
the state unchanged. -/
theorem C7_counterexample :
    exCmdRun.status = .running ∧ exCmdRun.agent_id = some "A" ∧
    hbIdle.agent_id = "A" ∧ hbIdle.last_heartbeat < 100 - 50 ∧
    checkStaleCommands 50 100 exStateStaleNull = (exStateStaleNull, 0) := by
  decide

theorem staleReclaimStep_commands_other (now : Nat) (acc : DbState × Nat)
    (b : String) (i : Nat) (c : CommandRec)
    (hacc : acc.1.commands[i]? = some c)
    (hne : c.agent_id ≠ some b ∨ c.status ≠ .running) :
    (staleReclaimStep now acc b).1.commands[i]? = some c := by
  unfold staleReclaimStep
  simp only [List.getElem?_map, hacc, Option.map_some']
  rw [if_neg (by
    simp only [Bool.and_eq_true, decide_eq_true_eq, not_and]
    intro h1 h2
    rcases hne with hne | hne
    · exact hne h1
    · exact hne h2)]

theorem staleReclaimStep_commands_self (now : Nat) (acc : DbState × Nat)
    (a : String) (i : Nat) (c : CommandRec)
    (hacc : acc.1.commands[i]? = some c)
    (ha : c.agent_id = some a) (hr : c.status = .running) :
    (staleReclaimStep now acc a).1.commands[i]? = some (reclaimCmd now c) := by
  unfold staleReclaimStep
  simp only [List.getElem?_map, hacc, Option.map_some']
  rw [if_pos (by simp [ha, hr])]

theorem fold_reclaim_nonrunning (now : Nat) :
    ∀ (agents : List String) (acc : DbState × Nat) (i : Nat) (c : CommandRec),
      acc.1.commands[i]? = some c → c.status ≠ .running →
      (agents.foldl (staleReclaimStep now) acc).1.commands[i]? = some c := by
  intro agents
  induction agents with
  | nil =>
    intro acc i c hacc _
    exact hacc
  | cons b rest ih =>
    intro acc i c hacc hnr
    simp only [List.foldl_cons]
    exact ih _ i c
      (staleReclaimStep_commands_other now acc b i c hacc (Or.inr hnr)) hnr

theorem fold_reclaim_mem (now : Nat) :
    ∀ (agents : List String) (acc : DbState × Nat) (i : Nat)
      (c : CommandRec) (a : String),
      acc.1.commands[i]? = some c → c.status = .running →
      c.agent_id = some a → a ∈ agents →
      (agents.foldl (staleReclaimStep now) acc).1.commands[i]? =
        some (reclaimCmd now c) := by
  intro agents
  induction agents with
  | nil =>
    intro _ _ _ _ hacc _ _ hmem
    cases hmem
  | cons b rest ih =>
    intro acc i c a hacc hr ha hmem
    simp only [List.foldl_cons]
    by_cases hab : a = b
    · subst hab
      have hstep := staleReclaimStep_commands_self now acc a i c hacc ha hr
      exact fold_reclaim_nonrunning now rest _ i _ hstep
        (by simp [reclaimCmd])
    · rcases List.mem_cons.mp hmem with rfl | hrest
      · exact absurd rfl hab
      · exact ih _ i c a
          (staleReclaimStep_commands_other now acc b i c hacc
            (Or.inl (by rw [ha]; simp [hab]))) hr ha hrest

theorem fold_reclaim_notmem (now : Nat) :
    ∀ (agents : List String) (acc : DbState × Nat) (i : Nat)
      (c : CommandRec) (a : String),
      acc.1.commands[i]? = some c → c.agent_id = some a → a ∉ agents →
      (agents.foldl (staleReclaimStep now) acc).1.commands[i]? = some c := by
  intro agents
  induction agents with
  | nil =>
    intro acc i c a hacc _ _
    exact hacc
  | cons b rest ih =>
    intro acc i c a hacc ha hnot
    simp only [List.foldl_cons]
    have hab : a ≠ b := fun hcon => hnot (hcon ▸ List.mem_cons_self b rest)
    exact ih _ i c a
      (staleReclaimStep_commands_other now acc b i c hacc
        (Or.inl (by rw [ha]; simp [hab]))) ha
      (fun hcon => hnot (List.mem_cons_of_mem _ hcon))

theorem hb_clear_idem (h : HeartbeatRec) (hn : h.current_command_id = none) :
    { h with current_command_id := none } = h := by
  cases h
  simp_all

theorem staleReclaimStep_hb_self (now : Nat) (acc : DbState × Nat)
    (a : String) (j : Nat) (h : HeartbeatRec)
    (hacc : acc.1.heartbeats[j]? = some h) (hha : h.agent_id = a) :
    (staleReclaimStep now acc a).1.heartbeats[j]? =
      some { h with current_command_id := none } := by
  unfold staleReclaimStep
  simp only [List.getElem?_map, hacc, Option.map_some']
  rw [if_pos hha]

theorem staleReclaimStep_hb_other (now : Nat) (acc : DbState × Nat)
    (b : String) (j : Nat) (h : HeartbeatRec)
    (hacc : acc.1.heartbeats[j]? = some h) (hne : h.agent_id ≠ b) :
    (staleReclaimStep now acc b).1.heartbeats[j]? = some h := by
  unfold staleReclaimStep
  simp only [List.getElem?_map, hacc, Option.map_some']
  rw [if_neg hne]

theorem fold_hb_cleared (now : Nat) :
    ∀ (agents : List String) (acc : DbState × Nat) (j : Nat)
      (h : HeartbeatRec),
      acc.1.heartbeats[j]? = some h → h.current_command_id = none →
      (agents.foldl (staleReclaimStep now) acc).1.heartbeats[j]? = some h := by
  intro agents
  induction agents with
  | nil =>
    intro acc j h hacc _
    exact hacc
  | cons b rest ih =>
    intro acc j h hacc hn
    simp only [List.foldl_cons]
    by_cases hhb : h.agent_id = b
    · have hstep := staleReclaimStep_hb_self now acc b j h hacc hhb
      rw [hb_clear_idem h hn] at hstep
      exact ih _ j h hstep hn
    · exact ih _ j h (staleReclaimStep_hb_other now acc b j h hacc hhb) hn

theorem fold_hb_mem (now : Nat) :
    ∀ (agents : List String) (acc : DbState × Nat) (j : Nat)
      (h : HeartbeatRec) (a : String),
      acc.1.heartbeats[j]? = some h → h.agent_id = a → a ∈ agents →
      (agents.foldl (staleReclaimStep now) acc).1.heartbeats[j]? =
        some { h with current_command_id := none } := by
  intro agents
  induction agents with
  | nil =>
    intro _ _ _ _ hacc _ hmem
    cases hmem
  | cons b rest ih =>
    intro acc j h a hacc hha hmem
    simp only [List.foldl_cons]
    by_cases hab : a = b
    · subst hab
      have hstep := staleReclaimStep_hb_self now acc a j h hacc hha
      exact fold_hb_cleared now rest _ j _ hstep rfl
    · rcases List.mem_cons.mp hmem with rfl | hrest
      · exact absurd rfl hab
      · exact ih _ j h a
          (staleReclaimStep_hb_other now acc b j h hacc
            (by rw [hha]; exact hab)) hha hrest

theorem staleAgentB_mem (cutoff : Nat) (s : DbState) (a : String) :
    staleAgentB cutoff s a = true ↔
      a ∈ (s.heartbeats.filter fun h =>
        decide (h.last_heartbeat < cutoff) &&
        h.current_command_id.isSome).map (fun h => h.agent_id) := by
  unfold staleAgentB
  simp only [List.any_eq_true, List.mem_map, List.mem_filter,
    Bool.and_eq_true, decide_eq_true_eq]
  constructor
  · rintro ⟨h, hmem, ⟨hha, hlt⟩, hsome⟩
    exact ⟨h, ⟨hmem, hlt, hsome⟩, hha⟩
  · rintro ⟨h, ⟨hmem, hlt, hsome⟩, hha⟩
    exact ⟨h, hmem, ⟨hha, hlt⟩, hsome⟩

/-- C7 amended: a RUNNING command owned by agent a is reset (status
PENDING, owner and started_at cleared, updated_at set to now, the
agent's heartbeat current_command_id cleared) exactly when a has a
heartbeat row with last_heartbeat below now - timeoutMs AND a non-null
current_command_id; when a is not selected - in particular when its
heartbeat row has a null current_command_id, however stale - the
command is left untouched. -/
theorem C7_amended (t now : Nat) (s : DbState) (i : Nat) (c : CommandRec)
    (a : String) (hc : s.commands[i]? = some c) (hr : c.status = .running)
    (ha : c.agent_id = some a) :
    (staleAgentB (now - t) s a = true →
      (checkStaleCommands t now s).1.commands[i]? =
        some (reclaimCmd now c) ∧
      (∀ (j : Nat) (h : HeartbeatRec),
        s.heartbeats[j]? = some h → h.agent_id = a →
        (checkStaleCommands t now s).1.heartbeats[j]? =
          some { h with current_command_id := none })) ∧
    (staleAgentB (now - t) s a = false →
      (checkStaleCommands t now s).1.commands[i]? = some c) := by
  have hbridge := staleAgentB_mem (now - t) s a
  unfold checkStaleCommands
  by_cases hemp : ((s.heartbeats.filter fun h =>
      decide (h.last_heartbeat < now - t) &&
      h.current_command_id.isSome).map (fun h => h.agent_id)).isEmpty
  · rw [if_pos hemp]
    rw [List.isEmpty_iff] at hemp
    have hnotmem : staleAgentB (now - t) s a = false := by
      rw [Bool.eq_false_iff]
      intro hcon
      have hm := hbridge.mp hcon
      rw [hemp] at hm
      cases hm
    constructor
    · intro hcon
      rw [hnotmem] at hcon
      cases hcon
    · intro _
      exact hc
  · rw [if_neg hemp]
    constructor
    · intro hstale
      have hmem := hbridge.mp hstale
      refine ⟨fold_reclaim_mem now _ (s, 0) i c a hc hr ha hmem, ?_⟩
      intro j h hj hha
      exact fold_hb_mem now _ (s, 0) j h a hj hha hmem
    · intro hnot
      refine fold_reclaim_notmem now _ (s, 0) i c a hc ha ?_
      intro hcon
      rw [hbridge.mpr hcon] at hnot
      cases hnot

/-- C7 amended witness: with a stale heartbeat row that still names the
command, the RUNNING command is reclaimed. -/
theorem C7_witness :
    (checkStaleCommands 50 100 exStateRun).1.commands[0]? =
      some (reclaimCmd 100 exCmdRun) :=
  ((C7_amended 50 100 exStateRun 0 exCmdRun "A" (by decide) (by decide)
    (by decide)).1 (by decide)).1

/-!
Claim C8.  The POST /agent/heartbeat handler passes the request's
commandId straight to updateHeartbeat, which overwrites the row's
current_command_id with it (NULL when absent).  An idle-looking
heartbeat from an agent that still owns a RUNNING command therefore
breaks the correspondence, so updateHeartbeat does not preserve the
invariant; the five database operations do.
-/

/-- C8 counterexample: a state satisfying the heartbeat correspondence
(and single assignment) on which a bare heartbeat from agent A - the
exact call POST /agent/heartbeat makes when the body has no commandId -
clears current_command_id while A's command is still RUNNING. -/
theorem C8_counterexample :
    hbCorr exStateRun = true ∧ singleAssignB exStateRun = true ∧
    hbCorr (updateHeartbeat "A" none 5 exStateRun) = false := by
  decide

theorem distinctAgents_unique :
    ∀ l : List CommandRec, distinctAgents l = true →
      ∀ c ∈ l, ∀ d ∈ l, c.agent_id = d.agent_id → c = d := by
  intro l
  induction l with
  | nil =>
    intro _ c hc
    cases hc
  | cons x rest ih =>
    intro hnd c hc d hd heq
    unfold distinctAgents at hnd
    simp only [Bool.and_eq_true, List.all_eq_true, decide_eq_true_eq] at hnd
    rcases List.mem_cons.mp hc with rfl | hcr
    · rcases List.mem_cons.mp hd with rfl | hdr
      · rfl
      · exact absurd heq (hnd.1 d hdr)
    · rcases List.mem_cons.mp hd with rfl | hdr
      · exact absurd heq.symm (hnd.1 c hcr)
      · exact ih hnd.2 c hcr d hdr heq

theorem singleAssignB_unique (s : DbState) (hsa : singleAssignB s = true)
    (c d : CommandRec) (hc : c ∈ s.commands) (hd : d ∈ s.commands)
    (hcr : c.status = .running) (hdr : d.status = .running)
    (heq : c.agent_id = d.agent_id) : c = d := by
  refine distinctAgents_unique _ hsa c ?_ d ?_ heq
  · rw [List.mem_filter]
    exact ⟨hc, by simp [hcr]⟩
  · rw [List.mem_filter]
    exact ⟨hd, by simp [hdr]⟩

theorem all_map_forall {α : Type} (p : α → Bool) (f : α → α) :
    ∀ l : List α, (∀ c, c ∈ l → p (f c) = true) → (l.map f).all p = true := by
  intro l h
  simp only [List.all_eq_true, List.mem_map]
  rintro x ⟨c, hc, rfl⟩
  exact h c hc

theorem hbCorrOk_of_not_running (hbs : List HeartbeatRec) (c : CommandRec)
    (h : c.status ≠ .running) : hbCorrOk hbs c = true := by
  unfold hbCorrOk
  rw [if_neg h]

theorem hbCorrOk_none (hbs : List HeartbeatRec) (c : CommandRec)
    (hr : c.status = .running) (ha : c.agent_id = none) :
    hbCorrOk hbs c = true := by
  unfold hbCorrOk
  rw [if_pos hr, ha]

theorem hbCorrOk_some (hbs : List HeartbeatRec) (c : CommandRec) (a : String)
    (h0 : HeartbeatRec) (hr : c.status = .running) (ha : c.agent_id = some a)
    (hf : hbFind a hbs = some h0) (hcur : h0.current_command_id = some c.id) :
    hbCorrOk hbs c = true := by
  unfold hbCorrOk
  rw [if_pos hr, ha]
  dsimp only
  rw [hf]
  simp [hcur]

theorem hbCorrOk_elim (hbs : List HeartbeatRec) (c : CommandRec) (a : String)
    (hr : c.status = .running) (ha : c.agent_id = some a)
    (hok : hbCorrOk hbs c = true) :
    ∃ h0, hbFind a hbs = some h0 ∧ h0.current_command_id = some c.id := by
  unfold hbCorrOk at hok
  rw [if_pos hr, ha] at hok
  dsimp only at hok
  cases hf : hbFind a hbs with
  | none =>
    rw [hf] at hok
    cases hok
  | some h0 =>
    rw [hf] at hok
    simp only [decide_eq_true_eq] at hok
    exact ⟨h0, rfl, hok⟩

theorem hbFind_map_upsert (a : String) (hnew : HeartbeatRec)
    (hna : hnew.agent_id = a) :
    ∀ l : List HeartbeatRec,
      l.any (fun h => decide (h.agent_id = a)) = true →
      (l.map fun h => if h.agent_id = a then hnew else h).find?
        (fun h => decide (h.agent_id = a)) = some hnew := by
  intro l
  induction l with
  | nil =>
    intro hany
    cases hany
  | cons h rest ih =>
    intro hany
    simp only [List.map_cons]
    by_cases hha : h.agent_id = a
    · rw [if_pos hha, List.find?_cons_of_pos _ (by simp [hna])]
    · rw [if_neg hha, List.find?_cons_of_neg _ (by simp [hha])]
      refine ih ?_
      simp only [List.any_cons, Bool.or_eq_true, decide_eq_true_eq] at hany
      rcases hany with hcon | htail
      · exact absurd hcon hha
      · simpa using htail

theorem hbFind_updateHeartbeat_self (a : String) (cid : Option String)
    (now : Nat) (s : DbState) :
    hbFind a (updateHeartbeat a cid now s).heartbeats = some ⟨a, now, cid⟩ := by
  unfold updateHeartbeat hbFind
  by_cases hany : s.heartbeats.any (fun h => decide (h.agent_id = a)) = true
  · rw [if_pos hany]
    exact hbFind_map_upsert a ⟨a, now, cid⟩ rfl s.heartbeats hany
  · rw [if_neg hany]
    simp only
    rw [List.find?_append]
    have hnone : s.heartbeats.find? (fun h => decide (h.agent_id = a)) = none := by
      rw [List.find?_eq_none]
      intro h hmem hcon
      exact hany (List.any_eq_true.mpr ⟨h, hmem, hcon⟩)
    rw [hnone, List.find?_cons_of_pos _ (by simp)]
    rfl

theorem hbFind_map_other (a b : String) (hne : a ≠ b) (hnew : HeartbeatRec)
    (hbn : hnew.agent_id = b) :
    ∀ l : List HeartbeatRec,
      (l.map fun h => if h.agent_id = b then hnew else h).find?
        (fun h => decide (h.agent_id = a)) =
      l.find? (fun h => decide (h.agent_id = a)) := by
  intro l
  induction l with
  | nil => rfl
  | cons h rest ih =>
    simp only [List.map_cons]
    by_cases hhb : h.agent_id = b
    · rw [if_pos hhb,
        List.find?_cons_of_neg _ (by
          simp only [hbn, decide_eq_true_eq]
          exact fun hcon => hne hcon.symm),
        List.find?_cons_of_neg _ (by
          simp only [hhb, decide_eq_true_eq]
          exact fun hcon => hne hcon.symm)]
      exact ih
    · by_cases hha : h.agent_id = a
      · rw [if_neg hhb, List.find?_cons_of_pos _ (by simp [hha]),
          List.find?_cons_of_pos _ (by simp [hha])]
      · rw [if_neg hhb, List.find?_cons_of_neg _ (by simp [hha]),
          List.find?_cons_of_neg _ (by simp [hha])]
        exact ih

theorem hbFind_updateHeartbeat_other (a b : String) (hne : a ≠ b)
    (cid : Option String) (now : Nat) (s : DbState) :
    hbFind a (updateHeartbeat b cid now s).heartbeats = hbFind a s.heartbeats := by
  unfold updateHeartbeat hbFind
  by_cases hany : s.heartbeats.any (fun h => decide (h.agent_id = b)) = true
  · rw [if_pos hany]
    exact hbFind_map_other a b hne ⟨b, now, cid⟩ rfl s.heartbeats
  · rw [if_neg hany]
    simp only
    rw [List.find?_append]
    cases hf : s.heartbeats.find? (fun h => decide (h.agent_id = a)) with
    | some h0 => rfl
    | none =>
      rw [List.find?_cons_of_neg _ (by simp; exact fun hcon => hne hcon.symm)]
      rfl

theorem hbFind_map_clear (a b : String) (l : List HeartbeatRec) :
    (l.map fun h => if h.agent_id = b then
        { h with current_command_id := none } else h).find?
      (fun h => decide (h.agent_id = a)) =
    (l.find? (fun h => decide (h.agent_id = a))).map
      (fun h => if h.agent_id = b then
        { h with current_command_id := none } else h) := by
  rw [List.find?_map]
  have hpf : ((fun h => decide (h.agent_id = a)) ∘ (fun h =>
      if h.agent_id = b then { h with current_command_id := none } else h)) =
      (fun h : HeartbeatRec => decide (h.agent_id = a)) := by
    funext h
    by_cases hhb : h.agent_id = b
    · simp [Function.comp, hhb]
    · simp [Function.comp, hhb]
  rw [hpf]

theorem staleReclaimStep_hbCorr (now : Nat) (acc : DbState × Nat) (b : String)
    (hcorr : hbCorr acc.1 = true) :
    hbCorr (staleReclaimStep now acc b).1 = true := by
  unfold staleReclaimStep hbCorr
  simp only
  refine all_map_forall _ _ _ ?_
  intro c hcmem
  by_cases hcond : (c.agent_id = some b ∧ c.status = .running)
  · rw [if_pos (by simp [hcond.1, hcond.2])]
    exact hbCorrOk_of_not_running _ _ (fun hcon => CmdStatus.noConfusion hcon)
  · rw [if_neg (by
      simp only [Bool.and_eq_true, decide_eq_true_eq, not_and]
      intro h1 h2
      exact hcond ⟨h1, h2⟩)]
    by_cases hcr : c.status = .running
    · cases haid : c.agent_id with
      | none => exact hbCorrOk_none _ c hcr haid
      | some a =>
        have hab : a ≠ b := by
          intro hcon
          exact hcond ⟨by rw [haid, hcon], hcr⟩
        have hold : hbCorrOk acc.1.heartbeats c = true :=
          List.all_eq_true.mp hcorr c hcmem
        obtain ⟨h0, hf, hcur⟩ := hbCorrOk_elim _ c a hcr haid hold
        have hh0a : h0.agent_id = a := by
          have := List.find?_some hf
          simpa using this
        refine hbCorrOk_some _ c a h0 hcr haid ?_ hcur
        unfold hbFind
        unfold hbFind at hf
        rw [hbFind_map_clear a b, hf]
        simp only [Option.map_some']
        rw [if_neg (by rw [hh0a]; exact hab)]
    · exact hbCorrOk_of_not_running _ _ hcr

/-- C8 amended: the heartbeat correspondence (every RUNNING command's
owner has a heartbeat row naming that command) is preserved by
createCommand, fetchNextCommand, completeCommand, checkStaleCommands
and recoverFromCrash - given single assignment - but not by
updateHeartbeat, which the heartbeat endpoint calls with whatever
commandId the request carries. -/
theorem C8_amended (s : DbState) (hsa : singleAssignB s = true)
    (hcorr : hbCorr s = true) :
    (∀ id ct p now s1 c1, createCommand id ct p now s = some (s1, c1) →
      hbCorr s1 = true) ∧
    (∀ a now, hbCorr (fetchNextCommand a now s).1 = true) ∧
    (∀ cid aid st r e now,
      hbCorr (completeCommand cid aid st r e now s).1 = true) ∧
    (∀ t now, hbCorr (checkStaleCommands t now s).1 = true) ∧
    (∀ now, hbCorr (recoverFromCrash now s) = true) := by
  refine ⟨?_, ?_, ?_, ?_, ?_⟩
  · intro id ct p now s1 c1 hcr
    unfold createCommand at hcr
    split at hcr
    · exact absurd hcr (by simp)
    · simp only [Option.some.injEq, Prod.mk.injEq] at hcr
      obtain ⟨hs1, -⟩ := hcr
      subst hs1
      unfold hbCorr at hcorr ⊢
      simp only [List.all_append, List.all_cons, List.all_nil, Bool.and_true,
        Bool.and_eq_true] at *
      exact ⟨hcorr,
        hbCorrOk_of_not_running _ _ (fun hcon => CmdStatus.noConfusion hcon)⟩
  · intro a now
    cases hrun : getRunningFor a s with
    | some c =>
      rw [fetchNextCommand_running a now s c hrun]
      exact hcorr
    | none =>
      cases hsel : selectPending s.commands with
      | none =>
        rw [fetchNextCommand_idle a now s hrun hsel]
        exact hcorr
      | some p =>
        rw [fetchNextCommand_assign a now s p hrun hsel]
        unfold hbCorr
        rw [updateHeartbeat_commands]
        dsimp only
        refine all_map_forall _ _ _ ?_
        intro c hcmem
        by_cases hcp : c.id = p.id
        · rw [if_pos hcp]
          refine hbCorrOk_some _ _ a ⟨a, now, some p.id⟩ rfl rfl ?_ ?_
          · exact hbFind_updateHeartbeat_self a (some p.id) now _
          · simp [assignCmd, hcp]
        · rw [if_neg hcp]
          by_cases hcr2 : c.status = .running
          · cases haid : c.agent_id with
            | none => exact hbCorrOk_none _ c hcr2 haid
            | some a2 =>
              have ha2 : a2 ≠ a := by
                intro hcon
                subst hcon
                unfold getRunningFor at hrun
                rw [List.find?_eq_none] at hrun
                exact hrun c hcmem (by simp [haid, hcr2])
              have hold : hbCorrOk s.heartbeats c = true :=
                List.all_eq_true.mp hcorr c hcmem
              obtain ⟨h0, hff, hcur⟩ := hbCorrOk_elim _ c a2 hcr2 haid hold
              refine hbCorrOk_some _ c a2 h0 hcr2 haid ?_ hcur
              rw [hbFind_updateHeartbeat_other a2 a ha2 (some p.id) now _]
              exact hff
          · exact hbCorrOk_of_not_running _ _ hcr2
  · intro cid aid st r e now
    cases hf : s.commands.find? (fun c =>
        decide (c.id = cid) && decide (c.agent_id = some aid) &&
        decide (c.status = .running)) with
    | none =>
      rw [completeCommand_not_found cid aid st r e now s hf]
      exact hcorr
    | some c0 =>
      rw [completeCommand_found_eq cid aid st r e now s c0 hf]
      have hc0mem := List.mem_of_find?_eq_some hf
      have hp := List.find?_some hf
      simp only [Bool.and_eq_true, decide_eq_true_eq] at hp
      unfold hbCorr
      rw [updateHeartbeat_commands]
      dsimp only
      refine all_map_forall _ _ _ ?_
      intro c hcmem
      by_cases hcond : (decide (c.id = cid) &&
          decide (c.agent_id = some aid)) = true
      · rw [if_pos hcond]
        refine hbCorrOk_of_not_running _ _ ?_
        cases st <;> exact fun hcon => CmdStatus.noConfusion hcon
      · rw [if_neg hcond]
        by_cases hcr2 : c.status = .running
        · cases haid : c.agent_id with
          | none => exact hbCorrOk_none _ c hcr2 haid
          | some a2 =>
            have ha2 : a2 ≠ aid := by
              intro hcon
              subst hcon
              have hceq : c = c0 :=
                singleAssignB_unique s hsa c c0 hcmem hc0mem hcr2 hp.2
                  (by rw [haid, hp.1.2])
              apply hcond
              rw [hceq]
              simp [hp.1.1, hp.1.2]
            have hold : hbCorrOk s.heartbeats c = true :=
              List.all_eq_true.mp hcorr c hcmem
            obtain ⟨h0, hff, hcur⟩ := hbCorrOk_elim _ c a2 hcr2 haid hold
            refine hbCorrOk_some _ c a2 h0 hcr2 haid ?_ hcur
            rw [hbFind_updateHeartbeat_other a2 aid ha2 none now _]
            exact hff
        · exact hbCorrOk_of_not_running _ _ hcr2
  · intro t now
    unfold checkStaleCommands
    by_cases hemp : ((s.heartbeats.filter fun h =>
        decide (h.last_heartbeat < now - t) &&
        h.current_command_id.isSome).map (fun h => h.agent_id)).isEmpty
    · rw [if_pos hemp]
      exact hcorr
    · rw [if_neg hemp]
      refine foldl_preserves (fun acc => hbCorr acc.1 = true)
        (staleReclaimStep now) ?_ _ (s, 0) hcorr
      intro acc x hacc
      exact staleReclaimStep_hbCorr now acc x hacc
  · intro now
    unfold recoverFromCrash hbCorr
    dsimp only
    refine all_map_forall _ _ _ ?_
    intro c _
    by_cases hcr2 : c.status = .running
    · rw [if_pos hcr2]
      exact hbCorrOk_of_not_running _ _ (fun hcon => CmdStatus.noConfusion hcon)
    · rw [if_neg hcr2]
      exact hbCorrOk_of_not_running _ _ hcr2

/-- C8 amended witness at the concrete running state. -/
theorem C8_witness : hbCorr (recoverFromCrash 5 exStateRun) = true :=
  (C8_amended exStateRun (by decide) (by decide)).2.2.2.2 5

end FTExec
